import Mathlib

/-!
# Verification of the MVCC value / transaction / lease / span data model and
# the bulk-ingestion SST batcher

A shallow embedding, in Lean 4, of the algorithms of
`pkg/roachpb/data.go` (versioned values with optional checksums,
transaction records with epochs/priorities/timestamps, lease equivalence,
key-span algebra) and `pkg/kv/bulk/sst_batcher.go` (the duplicate-key
handling and flush decisions of the SST batcher), with theorems about the
properties those algorithms are documented to satisfy.

Keys and raw value blobs are byte strings, embedded as `List Nat`
(`bytes.Compare` is lexicographic byte comparison; `Key.Next` appends a
zero byte, as `encoding.BytesNext` does). Values written by a `hash.Hash32`
digest are modelled by an arbitrary function from the written byte string
to the 32-bit sum, mirroring how `computeChecksum` in the source takes the
hasher as a parameter. HLC timestamps (an external leaf package of the
repository) are modelled from the spec as a linearly ordered
(wall, logical) pair whose `Forward`/`Backward` operations are max/min.
-/

namespace Spec2Proof

/-! ## Byte strings, lexicographic order, and `Key.Next` -/

/-- A byte string (a Go `[]byte`); a `nil` slice is the empty list. -/
abbrev Bytes := List Nat

/-- `bytes.Compare`: lexicographic three-way comparison of byte strings. -/
def byteCompare : Bytes → Bytes → Ordering
  | [], [] => Ordering.eq
  | [], _ :: _ => Ordering.lt
  | _ :: _, [] => Ordering.gt
  | a :: as, b :: bs =>
    if a < b then Ordering.lt
    else if b < a then Ordering.gt
    else byteCompare as bs

/-- `Key.Next` (via `encoding.BytesNext`): append a zero byte, giving the
immediate lexicographic successor key. -/
def keyNext (k : Bytes) : Bytes := k ++ [0]

/-! ## VersionedValue: checksums (`Value` in `pkg/roachpb/data.go`)

A `Value`'s `RawBytes` is `[checksum (4 bytes)][tag (1 byte)][payload]`,
optionally preceded by an extended header
`[4-byte big-endian length][sentinel tag byte][length header bytes]`.
The digest function (`crc32.NewIEEE` in the source, passed to
`computeChecksum` as a `hash.Hash32` parameter) is modelled as an arbitrary
function from the written byte string to its 32-bit sum. -/

def checksumSize : Nat := 4
def tagPos : Nat := checksumSize
def headerSize : Nat := tagPos + 1
def extendedMVCCValLenSize : Nat := 4
def extendedPreludeSize : Nat := extendedMVCCValLenSize + 1

/-- The byte value of `ValueType_MVCC_EXTENDED_ENCODING_SENTINEL` (ASCII 'e',
see the comment in `Value.IsPresent`). -/
def extendedSentinel : Nat := 101

/-- `binary.BigEndian.Uint32` of the first four bytes. All uses in the source
are guarded by a length check, so the short-list default is never reached
under those guards. -/
def be32 : Bytes → Nat
  | a :: b :: c :: d :: _ => ((a * 256 + b) * 256 + c) * 256 + d
  | _ => 0

/-- `encoding.EncodeUint32Ascending`: big-endian 4-byte encoding. -/
def be32enc (n : Nat) : Bytes :=
  [n / 2 ^ 24 % 256, n / 2 ^ 16 % 256, n / 2 ^ 8 % 256, n % 256]

/-- `Value.usesExtendedEncoding`. -/
def usesExtendedEncoding (v : Bytes) : Bool :=
  decide (headerSize < v.length) && (v.get? tagPos == some extendedSentinel)

/-- uint32 arithmetic: the extended-header offsets are computed in `uint32`
in the source and wrap modulo 2^32. -/
def u32wrap (n : Nat) : Nat := n % 2 ^ 32

/-- `Value.checksum`: the stored checksum, or 0 when too short to hold one.
The extended-header size `extendedMVCCValLenSize + BigEndian.Uint32(...)`
is computed in `uint32`, so it wraps modulo 2^32 before the length guard;
after that guard the 4-byte read is always in bounds, so this function
never panics. -/
def vChecksum (v : Bytes) : Nat :=
  if v.length < checksumSize then 0
  else if usesExtendedEncoding v then
    let extendedHeaderSize := u32wrap (extendedMVCCValLenSize + be32 v)
    if v.length < extendedHeaderSize + headerSize then 0
    else be32 (v.drop (extendedHeaderSize + 1))
  else be32 v

/-- `computeChecksum(key, rawBytes, crc)`: digest of `key` followed by the
post-checksum bytes of the (extended-header-stripped) raw bytes, with a
genuinely-zero digest folded to 1 to keep 0 meaning "uninitialized".
`simpleValueStart` is `uint32` arithmetic (wraps modulo 2^32), and the
reslice `rawBytes[simpleValueStart:]` panics when the start exceeds the
buffer length — modelled as `none`. -/
def computeChecksumRaw (crc : Bytes → Nat) (key rawBytes : Bytes) : Option Nat :=
  if rawBytes.length < headerSize then some 0
  else if rawBytes.get? tagPos = some extendedSentinel then
    let simpleValueStart := u32wrap (extendedMVCCValLenSize + be32 rawBytes + 1)
    if rawBytes.length < simpleValueStart then none
    else
      let rb := rawBytes.drop simpleValueStart
      if rb.length < headerSize then some 0
      else
        let sum := crc (key ++ rb.drop checksumSize)
        some (if sum = 0 then 1 else sum)
  else
    let sum := crc (key ++ rawBytes.drop checksumSize)
    some (if sum = 0 then 1 else sum)

/-- `Value.setChecksum` (via `encoding.EncodeUint32Ascending` into the first
four bytes); a no-op when the raw bytes cannot hold a checksum. -/
def setChecksum (v : Bytes) (cksum : Nat) : Bytes :=
  if checksumSize ≤ v.length then be32enc cksum ++ v.drop checksumSize else v

/-- `Value.VerifyHeader`: a non-empty value must be at least header-sized. -/
def verifyHeader (v : Bytes) : Bool :=
  !(decide (0 < v.length) && decide (v.length < headerSize))

/-- `Value.Verify(key)`: `some true` means no error, `some false` an error,
and `none` the slice-bounds panic propagating out of the checksum
computation. Header must verify; then a non-zero stored checksum must
match the recomputed digest. -/
def verify (crc : Bytes → Nat) (key v : Bytes) : Option Bool :=
  if verifyHeader v = false then some false
  else if vChecksum v ≠ 0 then
    match computeChecksumRaw crc key v with
    | none => none
    | some computedSum => if computedSum ≠ vChecksum v then some false else some true
  else some true

/-- The possible outcomes of `Value.InitChecksum(key)`: a normal return,
the explicit panic branch for an already-initialized (non-zero) checksum,
or the runtime slice-bounds panic raised inside `computeChecksum` when a
corrupt extended-header length prefix overruns the buffer. -/
inductive InitChecksumResult
  | ok (rawBytes : Bytes)
  | alreadyInitializedPanic
  | sliceBoundsPanic
deriving DecidableEq, Repr

/-- `Value.InitChecksum(key)`: a `nil`/empty `RawBytes` is left untouched;
an already-initialized checksum takes the explicit panic branch; otherwise
the computed checksum is written (unless the checksum computation itself
panics on a corrupt extended header). -/
def initChecksum (crc : Bytes → Nat) (key v : Bytes) : InitChecksumResult :=
  if v = [] then .ok v
  else if vChecksum v ≠ 0 then .alreadyInitializedPanic
  else
    match computeChecksumRaw crc key v with
    | none => .sliceBoundsPanic
    | some sum => .ok (setChecksum v sum)

/-- The digest computation is actually reached (the raw bytes are at least
header-sized, and when an extended header is present the simple value that
follows it is in bounds and at least header-sized): exactly the condition
under which `computeChecksum` in the source reaches the CRC instead of
returning 0 early or panicking. -/
def digestReached (rawBytes : Bytes) : Prop :=
  headerSize ≤ rawBytes.length ∧
    (rawBytes.get? tagPos = some extendedSentinel →
      u32wrap (extendedMVCCValLenSize + be32 rawBytes + 1) + headerSize ≤ rawBytes.length)

/-! ## Span algebra (`Span` in `pkg/roachpb/data.go`)

Half-open key ranges `[Key, EndKey)`; an empty `EndKey` denotes a
single-key span. -/

structure Span where
  key : Bytes
  endKey : Bytes
deriving DecidableEq, Repr

/-- `Span.Valid`: not both keys empty, and `Key < EndKey` when `EndKey` is
non-empty. -/
def Span.valid (s : Span) : Bool :=
  if s.key.length = 0 ∧ s.endKey.length = 0 then false
  else if s.endKey.length = 0 then true
  else if byteCompare s.key s.endKey ≠ Ordering.lt then false
  else true

/-- `Span.Overlaps`. -/
def Span.overlaps (s o : Span) : Bool :=
  if ¬ (s.valid ∧ o.valid) then false
  else if s.endKey.length = 0 ∧ o.endKey.length = 0 then s.key = o.key
  else if s.endKey.length = 0 then
    byteCompare s.key o.key ≠ Ordering.lt ∧ byteCompare s.key o.endKey = Ordering.lt
  else if o.endKey.length = 0 then
    byteCompare o.key s.key ≠ Ordering.lt ∧ byteCompare o.key s.endKey = Ordering.lt
  else
    byteCompare s.endKey o.key = Ordering.gt ∧ byteCompare s.key o.endKey = Ordering.lt

/-- `Span.Contains`. -/
def Span.contains (s o : Span) : Bool :=
  if ¬ (s.valid ∧ o.valid) then false
  else if s.endKey.length = 0 ∧ o.endKey.length = 0 then s.key = o.key
  else if s.endKey.length = 0 then false
  else if o.endKey.length = 0 then
    byteCompare o.key s.key ≠ Ordering.lt ∧ byteCompare o.key s.endKey = Ordering.lt
  else
    byteCompare s.key o.key ≠ Ordering.gt ∧ byteCompare s.endKey o.endKey ≠ Ordering.lt

/-- `Span.ContainsKey`. -/
def Span.containsKey (s : Span) (key : Bytes) : Bool :=
  byteCompare key s.key ≠ Ordering.lt ∧ byteCompare key s.endKey = Ordering.lt

/-! ## HLC timestamps

The `hlc` package is an external leaf of the repository (not among the
provided sources). Modelled from the spec: timestamps form a linear order
(wall time, then logical tick); `Forward` advances to the maximum,
`Backward` retreats to the minimum, and the zero timestamp means
"empty/unset". -/

structure TS where
  wall : Nat
  logical : Nat
deriving DecidableEq, Repr

def TS.empty : TS := ⟨0, 0⟩

/-- `hlc.Timestamp.Less`: lexicographic strict order. -/
def TS.less (a b : TS) : Bool :=
  a.wall < b.wall ∨ (a.wall = b.wall ∧ a.logical < b.logical)

/-- `hlc.Timestamp.LessEq`. -/
def TS.lessEq (a b : TS) : Bool := TS.less a b ∨ a = b

/-- `hlc.Timestamp.Forward`: advance to the maximum of the two. -/
def TS.forward (a b : TS) : TS := if TS.less a b then b else a

/-- `hlc.Timestamp.Backward`: retreat to the minimum of the two. -/
def TS.backward (a b : TS) : TS := if TS.less b a then b else a

/-- `hlc.Timestamp.IsEmpty`. -/
def TS.isEmpty (a : TS) : Bool := a = TS.empty

/-! ## TransactionRecord (`Transaction` in `pkg/roachpb/data.go`)

Transaction ids are modelled as `Nat` with 0 the zero UUID; priorities as
`Nat` with `enginepb.MinTxnPriority = 0`; lock spans, in-flight writes and
ignored-seqnum ranges as lists whose elements the merge logic never
inspects. `MakePriority`'s random draw is non-deterministic, so `Restart`
takes the drawn priority as a parameter. -/

inductive TxnStatus
  | pending
  | prepared
  | staging
  | committed
  | aborted
deriving DecidableEq, Repr

/-- `TransactionStatus.IsFinalized`. -/
def TxnStatus.isFinalized : TxnStatus → Bool
  | .committed => true
  | .aborted => true
  | _ => false

/-- `enginepb.MinTxnPriority`, the distinguished minimum-priority sentinel. -/
def minTxnPriority : Nat := 0

structure Transaction where
  id : Nat
  key : Bytes
  isoLevel : Nat
  epoch : Nat
  priority : Nat
  sequence : Nat
  status : TxnStatus
  readTimestamp : TS
  writeTimestamp : TS
  minTimestamp : TS
  lastHeartbeat : TS
  globalUncertaintyLimit : TS
  readTimestampFixed : Bool
  lockSpans : List Span
  inFlightWrites : List Nat
  ignoredSeqNums : List (Nat × Nat)
  observedTimestamps : List (Nat × TS)
  admissionPriority : Nat
  omitInRangefeeds : Bool
deriving DecidableEq, Repr

/-- `Transaction.UpgradePriority`: max with the candidate, except the
minimum-priority sentinel is sticky. -/
def Transaction.upgradePriority (t : Transaction) (minPriority : Nat) : Transaction :=
  if minPriority > t.priority ∧ t.priority ≠ minTxnPriority then
    { t with priority := minPriority }
  else t

/-- `Transaction.BumpEpoch`. -/
def Transaction.bumpEpoch (t : Transaction) : Transaction :=
  { t with epoch := t.epoch + 1 }

/-- `Transaction.Restart(userPriority, upgradePriority, timestamp)`. The
random priority drawn from `MakePriority(userPriority)` is the parameter
`randomPriority`. -/
def Transaction.restart
    (t : Transaction) (randomPriority upgradePri : Nat) (timestamp : TS) : Transaction :=
  let t := t.bumpEpoch
  let t := if TS.less t.writeTimestamp timestamp then { t with writeTimestamp := timestamp } else t
  let t := { t with readTimestamp := t.writeTimestamp }
  let t := t.upgradePriority randomPriority
  let t := t.upgradePriority upgradePri
  { t with sequence := 0, readTimestampFixed := false, lockSpans := [],
           inFlightWrites := [], ignoredSeqNums := [] }

/-- `observedTimestampSlice.update`: insert-or-lower in the node-id-sorted
observed-timestamp list (the list analogue of the binary-search insert). -/
def obsUpdate : List (Nat × TS) → Nat → TS → List (Nat × TS)
  | [], n, ts => [(n, ts)]
  | (m, t0) :: rest, n, ts =>
    if n < m then (n, ts) :: (m, t0) :: rest
    else if n = m then
      if TS.less ts t0 then (n, ts) :: rest else (m, t0) :: rest
    else (m, t0) :: obsUpdate rest n ts

/-- `Transaction.UpdateObservedTimestamp`. -/
def Transaction.updateObserved (t : Transaction) (n : Nat) (ts : TS) : Transaction :=
  { t with observedTimestamps := obsUpdate t.observedTimestamps n ts }

/-- The status switch of `Transaction.Update`'s equal-epoch branch: PENDING
may move to anything; PREPARED/STAGING may not revert to PENDING; an
ABORTED or COMMITTED status is kept (the ABORTED-with-COMMITTED-other case
only logs a warning). -/
def statusForwardEqualEpoch (ts os : TxnStatus) : TxnStatus :=
  match ts with
  | .pending => os
  | .prepared => if os ≠ .pending then os else ts
  | .staging => if os ≠ .pending then os else ts
  | .aborted => ts
  | .committed => ts

/-- The epoch-comparison stage of `Transaction.Update`: replace, forward, or
ignore the epoch-scoped state (and apply the status transition rules),
depending on how the two epochs compare. -/
def updateEpochScoped (t o : Transaction) : Transaction :=
  if t.epoch < o.epoch then
    -- Replace all epoch-scoped state; a finalized status is kept.
    let t := if ¬ t.status.isFinalized then { t with status := o.status } else t
    { t with epoch := o.epoch, readTimestampFixed := o.readTimestampFixed,
             sequence := o.sequence, lockSpans := o.lockSpans,
             inFlightWrites := o.inFlightWrites, ignoredSeqNums := o.ignoredSeqNums }
  else if t.epoch = o.epoch then
    -- Forward all epoch-scoped state.
    let t := { t with status := statusForwardEqualEpoch t.status o.status }
    let t :=
      if t.readTimestamp = o.readTimestamp then
        { t with readTimestampFixed := t.readTimestampFixed || o.readTimestampFixed }
      else if TS.less t.readTimestamp o.readTimestamp then
        { t with readTimestampFixed := o.readTimestampFixed }
      else t
    let t := if t.sequence < o.sequence then { t with sequence := o.sequence } else t
    let t := if o.lockSpans ≠ [] then { t with lockSpans := o.lockSpans } else t
    let t := if o.inFlightWrites ≠ [] then { t with inFlightWrites := o.inFlightWrites } else t
    let t := if o.ignoredSeqNums ≠ [] then { t with ignoredSeqNums := o.ignoredSeqNums } else t
    t
  else
    -- t.epoch > o.epoch: ignore epoch-scoped state from the earlier epoch,
    -- but absorb an ABORTED status (once aborted, always aborted).
    match o.status with
    | .aborted => { t with status := .aborted }
    | _ => t

/-- The opening of `Transaction.Update`: adopt the anchor key if unset and
the isolation level. -/
def updateKeyIso (t o : Transaction) : Transaction :=
  let t := if t.key = [] then { t with key := o.key } else t
  { t with isoLevel := o.isoLevel }

/-- "Forward each of the transaction timestamps." -/
def updateForwardTimestamps (t o : Transaction) : Transaction :=
  { t with writeTimestamp := TS.forward t.writeTimestamp o.writeTimestamp,
           lastHeartbeat := TS.forward t.lastHeartbeat o.lastHeartbeat,
           globalUncertaintyLimit :=
             TS.forward t.globalUncertaintyLimit o.globalUncertaintyLimit,
           readTimestamp := TS.forward t.readTimestamp o.readTimestamp }

/-- "On update, set lower bound timestamps to the minimum seen by either
txn." -/
def updateMinTimestamp (t o : Transaction) : Transaction :=
  if t.minTimestamp = TS.empty then { t with minTimestamp := o.minTimestamp }
  else if o.minTimestamp ≠ TS.empty then
    { t with minTimestamp := TS.backward t.minTimestamp o.minTimestamp }
  else t

/-- "Absorb the collected clock uncertainty information." -/
def updateAbsorbObserved (t o : Transaction) : Transaction :=
  o.observedTimestamps.foldl (fun acc p => acc.updateObserved p.1 p.2) t

/-- The trailing fields of `Transaction.Update` that are absent from
`TransactionRecord` (never overwritten with the default values). -/
def updateTrailingFields (t o : Transaction) : Transaction :=
  let t := if o.admissionPriority ≠ 0 then { t with admissionPriority := o.admissionPriority }
           else t
  if o.omitInRangefeeds then { t with omitInRangefeeds := true } else t

/-- `Transaction.Update(o)`: `none` models the fatal-error paths (an
uninitialized `o`, or differing non-zero transaction ids). -/
def Transaction.update (t o : Transaction) : Option Transaction :=
  if o.id = 0 ∨ o.writeTimestamp = TS.empty then none
  else if t.id = 0 then some o
  else if t.id ≠ o.id then none
  else
    some (updateTrailingFields
      ((updateAbsorbObserved
        (updateMinTimestamp
          (updateForwardTimestamps (updateEpochScoped (updateKeyIso t o) o) o) o)
        o).upgradePriority o.priority) o)

/-! ## LeaseModel (`Lease` in `pkg/roachpb/data.go`)

Exactly one of expiration / epoch / term selects the lease type (both epoch
and term non-zero is a contract violation, modelled as `none`). The final
verdict of `Equivalent` is equality of the two normalized leases; `none`
models the panics on an invalid lease type. -/

structure ReplicaDescriptor where
  nodeID : Nat
  storeID : Nat
  replicaID : Nat
  rtype : Nat
deriving DecidableEq, Repr

structure Lease where
  start : TS
  expiration : Option TS
  replica : ReplicaDescriptor
  deprecatedStartStasis : Option TS
  proposedTS : TS
  epoch : Nat
  sequence : Nat
  acquisitionType : Nat
  minExpiration : TS
  term : Nat
deriving DecidableEq, Repr

inductive LeaseType
  | expiration
  | epoch
  | leader
deriving DecidableEq, Repr

/-- `Lease.Type`: `none` models the panic when both epoch and term are set. -/
def Lease.typ (l : Lease) : Option LeaseType :=
  if l.epoch ≠ 0 ∧ l.term ≠ 0 then none
  else if l.epoch ≠ 0 then some .epoch
  else if l.term ≠ 0 then some .leader
  else some .expiration

/-- `Lease.GetExpiration`: the expiration, or the zero timestamp when absent. -/
def Lease.getExpiration (l : Lease) : TS := l.expiration.getD TS.empty

/-- The opening normalization of `Lease.Equivalent`: zero the fields that
must not affect equivalence (proposed timestamp, deprecated start stasis,
sequence number, acquisition type, and the replica descriptor's type). -/
def normalizeLease (l : Lease) : Lease :=
  { l with proposedTS := TS.empty, deprecatedStartStasis := none,
           sequence := 0, acquisitionType := 0,
           replica := { l.replica with rtype := 0 } }

/-- `Lease.Equivalent(newL, expToEpochEquiv)`: normalize the fields that must
not affect equivalence, branch on the old lease's type (and, for an
expiration-based old lease, on the new lease's type), then compare the two
normalized leases for equality. `none` models the `panic` on an invalid
lease type. -/
def Lease.equivalent (l0 newL0 : Lease) (expToEpochEquiv : Bool) : Option Bool :=
  let l := normalizeLease l0
  let newL := normalizeLease newL0
  match l.typ with
  | none => none
  | some .epoch =>
    let l := { l with expiration := none }
    let newL := { newL with expiration := none }
    let p := if l.epoch = newL.epoch then ({ l with epoch := 0 }, { newL with epoch := 0 })
             else (l, newL)
    let l := p.1; let newL := p.2
    let q := if TS.lessEq l.minExpiration newL.minExpiration then
               ({ l with minExpiration := TS.empty }, { newL with minExpiration := TS.empty })
             else (l, newL)
    some (decide (q.1 = q.2))
  | some .leader =>
    let p := if l.term = newL.term then ({ l with term := 0 }, { newL with term := 0 })
             else (l, newL)
    let l := p.1; let newL := p.2
    let q := if TS.lessEq l.minExpiration newL.minExpiration then
               ({ l with minExpiration := TS.empty }, { newL with minExpiration := TS.empty })
             else (l, newL)
    some (decide (q.1 = q.2))
  | some .expiration =>
    match newL.typ with
    | none => none
    | some .epoch =>
      -- Promotion from expiration-based to epoch-based, gated by the
      -- mixed-version compatibility flag.
      if expToEpochEquiv then
        let l := { l with expiration := none }
        let newL := { newL with epoch := 0, minExpiration := TS.empty }
        some (decide (l = newL))
      else some (decide (l = newL))
    | some .leader =>
      -- Promotion from expiration-based to a leader lease (no flag needed).
      let l := { l with expiration := none }
      let newL := { newL with term := 0, minExpiration := TS.empty }
      some (decide (l = newL))
    | some .expiration =>
      let l := { l with epoch := 0 }
      let newL := { newL with epoch := 0 }
      -- Extensions are considered equivalent.
      let q := if TS.lessEq l.getExpiration newL.getExpiration then
                 ({ l with expiration := none }, { newL with expiration := none })
               else (l, newL)
      some (decide (q.1 = q.2))

/-! ## SSTBatcher (`pkg/kv/bulk/sst_batcher.go`)

The per-batch state of the batcher: the buffered file under construction
(modelling the resident `sstWriter`/`sstFile`), the most-recent-key
bookkeeping used by duplicate detection, and the remembered range boundary.
External collaborators become configuration functions: the range cache is a
lookup from a key to the containing range's end key (`none` = not
configured / lookup failure, which only degrades the optimization), and
`keys.EnsureSafeSplitKey` is a function from a key to its row prefix
(`none` = the error path). The split/scatter/ingest RPCs and the
statistics/tracing plumbing are external side effects outside the model;
flushes are recorded as events carrying the flush reason, the covering span
`[firstKey, lastKey.Next())`, and the file contents. `writeAtBatchTS` mode
(which rewrites timestamps from the server clock, an external
collaborator) is not modelled. -/

structure Entry where
  key : Bytes
  ts : TS
  value : Bytes
deriving DecidableEq, Repr

inductive FlushReason
  | manual
  | size
  | range
deriving DecidableEq, Repr

structure FlushEvent where
  reason : FlushReason
  start : Bytes
  endEx : Bytes
  file : List Entry
deriving DecidableEq, Repr

/-- `kvserverbase.NewDuplicateKeyError(key, value)`. -/
structure DupError where
  key : Bytes
  value : Bytes
deriving DecidableEq, Repr

structure BatcherConfig where
  skipDuplicates : Bool
  ingestAll : Bool
  rc : Option (Bytes → Option Bytes)
  sizeThreshold : Nat
  safeSplitKey : Bytes → Option Bytes

structure BatcherState where
  batchStartKey : Bytes
  batchEndKey : Bytes
  batchEndValue : Bytes
  batchEndTimestamp : TS
  flushKeyChecked : Bool
  flushKey : Option Bytes
  buffer : List Entry
  flushed : List FlushEvent
deriving Repr

/-- The bytes an entry contributes to `sstWriter.DataSize`: key and value
bytes plus the encoded MVCC version timestamp (every entry contributes a
positive amount). -/
def entryBytes (e : Entry) : Nat := e.key.length + e.value.length + 13

/-- `sstWriter.DataSize` of the buffered file. -/
def dataSize (s : BatcherState) : Nat := s.buffer.foldl (fun a e => a + entryBytes e) 0

/-- The initial/reset per-batch state (`Reset` clears all per-batch scratch
state; cumulative state — here the `flushed` history — is preserved). -/
def BatcherState.reset (s : BatcherState) : BatcherState :=
  { s with buffer := [], batchStartKey := [], batchEndKey := [], batchEndValue := [],
           batchEndTimestamp := TS.empty, flushKey := none, flushKeyChecked := false }

/-- `doFlush(reason)`: a no-op on an empty buffer; otherwise finalizes the
file, whose covering span is `[batchStartKey, batchEndKey.Next())`, and
hands it to the (external) ingest operation — recorded as a flush event. -/
def BatcherState.doFlush (s : BatcherState) (reason : FlushReason) : BatcherState :=
  if dataSize s = 0 then s
  else { s with flushed :=
          s.flushed ++ [⟨reason, s.batchStartKey, keyNext s.batchEndKey, s.buffer⟩] }

/-- `flushIfNeeded(nextKey)`: on the first key since a reset, remember the
containing range's end key as the flush-before boundary (best effort);
flush (reason: range) when `nextKey` reaches or passes the boundary; flush
(reason: size) at the size threshold unless that would split a row across
two files. -/
def flushIfNeeded (cfg : BatcherConfig) (s0 : BatcherState) (nextKey : Bytes) : BatcherState :=
  let s :=
    if ¬ s0.flushKeyChecked ∧ cfg.rc.isSome then
      let s1 := { s0 with flushKeyChecked := true }
      match cfg.rc.bind (fun lookup => lookup nextKey) with
      | some endK => { s1 with flushKey := some endK }
      | none => s1
    else s0
  let shouldFlushDueToRange : Bool :=
    match s.flushKey with
    | some fk => decide (byteCompare fk nextKey ≠ Ordering.gt)
    | none => false
  if shouldFlushDueToRange then
    (s.doFlush .range).reset
  else if cfg.sizeThreshold ≤ dataSize s then
    match cfg.safeSplitKey s.batchEndKey, cfg.safeSplitKey nextKey with
    | some prevRow, some nextRow =>
      if prevRow = nextRow then s  -- keep going to row boundary
      else (s.doFlush .size).reset
    | _, _ => (s.doFlush .size).reset
  else s

/-- Acceptance of a key into the batch: update the start/end bookkeeping and
append to the buffered file (`sstWriter.PutRawMVCC`). -/
def acceptKey (s : BatcherState) (k : Bytes) (ts : TS) (v : Bytes) : BatcherState :=
  let s := if s.batchStartKey = [] then { s with batchStartKey := k } else s
  { s with batchEndTimestamp := ts, batchEndKey := k, batchEndValue := v,
           buffer := s.buffer ++ [⟨k, ts, v⟩] }

/-- `SSTBatcher.AddMVCCKey(key, timestamp, value)`: duplicate handling
against the most recently buffered key, then the flush check, then
acceptance. -/
def addMVCCKey (cfg : BatcherConfig) (s : BatcherState) (k : Bytes) (ts : TS) (v : Bytes) :
    Except DupError BatcherState :=
  if s.batchEndKey ≠ [] ∧ s.batchEndKey = k then
    if cfg.ingestAll ∧ ts = s.batchEndTimestamp then
      if v = s.batchEndValue then
        -- ingestAll allows and skips (key, timestamp, value) matches.
        Except.ok s
      else
        -- A new value at the exact key and timestamp: one of the two values
        -- would be completely lost.
        Except.error ⟨k, v⟩
    else if cfg.skipDuplicates ∧ v = s.batchEndValue then
      -- skipDuplicates allows and skips (key, value) matches.
      Except.ok s
    else if ¬ cfg.ingestAll then Except.error ⟨k, v⟩
    else Except.ok (acceptKey (flushIfNeeded cfg s k) k ts v)
  else Except.ok (acceptKey (flushIfNeeded cfg s k) k ts v)

/-! ## Concrete fixtures used to instantiate the theorems -/

/-- An expiration-based lease: replica (1,1,1), start `⟨1,0⟩`, expiration
`⟨10,0⟩`. -/
def leaseE : Lease :=
  ⟨⟨1, 0⟩, some ⟨10, 0⟩, ⟨1, 1, 1, 0⟩, none, TS.empty, 0, 1, 0, TS.empty, 0⟩

/-- An epoch-based lease: replica (1,1,1), start `⟨1,0⟩`, epoch 5. -/
def leaseQ : Lease :=
  ⟨⟨1, 0⟩, none, ⟨1, 1, 1, 0⟩, none, TS.empty, 5, 2, 0, TS.empty, 0⟩

/-- A batcher configuration: no duplicate modes, a range cache whose
lookup always reports end key "m", a large size threshold, and the
identity safe-split-key function. -/
def cfgW : BatcherConfig := ⟨false, false, some (fun _ => some [109]), 1000000, fun k => some k⟩

/-- A freshly reset batcher state. -/
def s0W : BatcherState := ⟨[], [], [], TS.empty, false, none, [], []⟩

/-- A batcher state holding keys "a" and "b" with remembered flush
boundary "m". -/
def sW : BatcherState :=
  ⟨[97], [98], [121], ⟨5, 0⟩, true, some [109],
    [⟨[97], ⟨5, 0⟩, [120]⟩, ⟨[98], ⟨5, 0⟩, [121]⟩], []⟩

/-- A transaction with id 1, all timestamps `⟨1,0⟩` and min timestamp
`⟨5,0⟩`, at epoch 0, PENDING. -/
def txnMin5 : Transaction :=
  ⟨1, [], 0, 0, 0, 0, .pending, ⟨1, 0⟩, ⟨1, 0⟩, ⟨5, 0⟩, ⟨1, 0⟩, ⟨1, 0⟩, false,
    [], [], [], [], 0, false⟩

/-- A transaction with id 1, read/write timestamps `⟨2,0⟩` and min timestamp
`⟨3,0⟩`, at epoch 0, PENDING. -/
def txnMin3 : Transaction :=
  ⟨1, [], 0, 0, 0, 0, .pending, ⟨2, 0⟩, ⟨2, 0⟩, ⟨3, 0⟩, ⟨1, 0⟩, ⟨1, 0⟩, false,
    [], [], [], [], 0, false⟩

/-- A PENDING transaction with id 1 at epoch 2. -/
def txnEpoch2 : Transaction :=
  ⟨1, [], 0, 2, 0, 0, .pending, ⟨1, 0⟩, ⟨1, 0⟩, ⟨1, 0⟩, ⟨1, 0⟩, ⟨1, 0⟩, false,
    [], [], [], [], 0, false⟩

/-- An ABORTED transaction with id 1 at epoch 1. -/
def txnAborted1 : Transaction :=
  ⟨1, [], 0, 1, 0, 0, .aborted, ⟨1, 0⟩, ⟨1, 0⟩, ⟨1, 0⟩, ⟨1, 0⟩, ⟨1, 0⟩, false,
    [], [], [], [], 0, false⟩

/-! ## Theorems: key ordering helpers -/

theorem byteCompare_eq_iff (a b : Bytes) : byteCompare a b = Ordering.eq ↔ a = b := by
  induction a generalizing b with
  | nil => cases b <;> simp [byteCompare]
  | cons x xs ih =>
    cases b with
    | nil => simp [byteCompare]
    | cons y ys =>
      by_cases hxy : x < y
      · simp [byteCompare, hxy]
        omega
      · by_cases hyx : y < x
        · simp [byteCompare, hxy, hyx]
          omega
        · have hxyeq : x = y := by omega
          simp [byteCompare, hxy, hyx, hxyeq, ih]

theorem byteCompare_swap (a b : Bytes) :
    byteCompare b a = (byteCompare a b).swap := by
  induction a generalizing b with
  | nil => cases b <;> simp [byteCompare, Ordering.swap]
  | cons x xs ih =>
    cases b with
    | nil => simp [byteCompare, Ordering.swap]
    | cons y ys =>
      by_cases hxy : x < y
      · have : ¬ y < x := by omega
        simp [byteCompare, hxy, this, Ordering.swap]
      · by_cases hyx : y < x
        · simp [byteCompare, hxy, hyx, Ordering.swap]
        · simp [byteCompare, hxy, hyx, ih]

theorem byteCompare_self (a : Bytes) : byteCompare a a = Ordering.eq :=
  (byteCompare_eq_iff a a).mpr rfl

/-- `x < k.Next()` iff `x ≤ k`: the successor key `k ++ [0]` is the least key
strictly above `k`. -/
theorem byteCompare_lt_next (x k : Bytes) :
    byteCompare x (keyNext k) = Ordering.lt ↔ byteCompare x k ≠ Ordering.gt := by
  induction k generalizing x with
  | nil =>
    cases x with
    | nil => simp [byteCompare, keyNext]
    | cons a as =>
      by_cases ha : a = 0
      · subst ha
        cases as <;> simp [byteCompare, keyNext]
      · have h1 : ¬ a < 0 := by omega
        have h2 : 0 < a := by omega
        simp [byteCompare, keyNext, h1, h2]
  | cons c cs ih =>
    cases x with
    | nil => simp [byteCompare, keyNext]
    | cons a as =>
      by_cases hac : a < c
      · simp [byteCompare, keyNext, hac]
      · by_cases hca : c < a
        · simp [byteCompare, keyNext, hac, hca]
        · simpa [byteCompare, keyNext, hac, hca] using ih as

/-- `k.Next() ≤ e` iff `k < e`. -/
theorem byteCompare_next_le (k e : Bytes) :
    byteCompare (keyNext k) e ≠ Ordering.gt ↔ byteCompare k e = Ordering.lt := by
  have h1 := byteCompare_lt_next e k
  rw [byteCompare_swap (keyNext k) e, byteCompare_swap k e] at h1
  rcases hc1 : byteCompare (keyNext k) e with _ | _ | _ <;>
    rcases hc2 : byteCompare k e with _ | _ | _ <;>
      simp [hc1, hc2, Ordering.swap] at h1 ⊢

/-- `x ∈ [k, k.Next())` iff `x = k`: the span `[k, k.Next())` holds exactly
the single key `k`. -/
theorem mem_next_iff_eq (x k : Bytes) :
    (byteCompare x k ≠ Ordering.lt ∧ byteCompare x (keyNext k) = Ordering.lt) ↔ x = k := by
  rw [byteCompare_lt_next]
  constructor
  · rintro ⟨h1, h2⟩
    rcases hc : byteCompare x k with _ | _ | _
    · exact absurd hc h1
    · exact (byteCompare_eq_iff x k).mp hc
    · exact absurd hc h2
  · rintro rfl
    simp [byteCompare_self]

theorem byteCompare_lt_keyNext_self (k : Bytes) :
    byteCompare k (keyNext k) = Ordering.lt := by
  rw [byteCompare_lt_next]
  simp [byteCompare_self]

/-! ## Theorems: timestamp order helpers -/

theorem ts_le_iff (a b : TS) :
    TS.lessEq a b = true ↔
      (a.wall < b.wall ∨ (a.wall = b.wall ∧ a.logical ≤ b.logical)) := by
  rcases a with ⟨aw, al⟩
  rcases b with ⟨bw, bl⟩
  simp [TS.lessEq, TS.less, TS.mk.injEq]
  omega

theorem ts_le_refl (a : TS) : TS.lessEq a a = true := by
  rw [ts_le_iff]
  omega

theorem ts_le_trans {a b c : TS} (h1 : TS.lessEq a b = true) (h2 : TS.lessEq b c = true) :
    TS.lessEq a c = true := by
  rw [ts_le_iff] at h1 h2 ⊢
  omega

theorem ts_le_forward_left (a b : TS) : TS.lessEq a (TS.forward a b) = true := by
  by_cases h : TS.less a b = true
  · simp only [TS.forward, h, if_true]
    simp [TS.lessEq, h]
  · simp only [TS.forward, h]
    simp [ts_le_refl, h]

theorem ts_forward_eq_max (a b : TS) :
    TS.forward a b = if TS.less a b then b else a := rfl

/-! ## Claim C3: `Transaction.Restart` -/

/-- C3. `Restart(userPriority, minPriority, timestamp)` bumps the epoch by
exactly one, advances the write timestamp to the maximum of the current
write timestamp and the given timestamp, sets the read timestamp equal to
the resulting write timestamp, and clears the epoch-scoped state (sequence
counter, read-timestamp-fixed flag, lock spans, in-flight writes,
ignored-seqnum ranges). The write timestamp never regresses; the read
timestamp never regresses provided the transaction's read timestamp was at
most its write timestamp (an invariant of well-formed transactions, and
re-established by `Restart` itself); and across any chained `Restart`
calls, epochs strictly increase and read/write timestamps never regress. -/
theorem restart_epoch_timestamps_and_state (t : Transaction) (rp up : Nat) (ts : TS) :
    (t.restart rp up ts).epoch = t.epoch + 1 ∧
    (t.restart rp up ts).writeTimestamp = TS.forward t.writeTimestamp ts ∧
    (t.restart rp up ts).readTimestamp = (t.restart rp up ts).writeTimestamp ∧
    (t.restart rp up ts).sequence = 0 ∧
    (t.restart rp up ts).readTimestampFixed = false ∧
    (t.restart rp up ts).lockSpans = [] ∧
    (t.restart rp up ts).inFlightWrites = [] ∧
    (t.restart rp up ts).ignoredSeqNums = [] ∧
    TS.lessEq t.writeTimestamp (t.restart rp up ts).writeTimestamp = true ∧
    (TS.lessEq t.readTimestamp t.writeTimestamp = true →
      TS.lessEq t.readTimestamp (t.restart rp up ts).readTimestamp = true) ∧
    (∀ rp2 up2 ts2,
      (t.restart rp up ts).epoch < ((t.restart rp up ts).restart rp2 up2 ts2).epoch ∧
      TS.lessEq (t.restart rp up ts).readTimestamp
        ((t.restart rp up ts).restart rp2 up2 ts2).readTimestamp = true ∧
      TS.lessEq (t.restart rp up ts).writeTimestamp
        ((t.restart rp up ts).restart rp2 up2 ts2).writeTimestamp = true) := by
  have hfields : ∀ (u : Transaction) (a b : Nat) (c : TS),
      (u.restart a b c).epoch = u.epoch + 1 ∧
      (u.restart a b c).writeTimestamp = TS.forward u.writeTimestamp c ∧
      (u.restart a b c).readTimestamp = TS.forward u.writeTimestamp c ∧
      (u.restart a b c).sequence = 0 ∧
      (u.restart a b c).readTimestampFixed = false ∧
      (u.restart a b c).lockSpans = [] ∧
      (u.restart a b c).inFlightWrites = [] ∧
      (u.restart a b c).ignoredSeqNums = [] := by
    intro u a b c
    simp only [Transaction.restart, Transaction.bumpEpoch, Transaction.upgradePriority,
      TS.forward]
    split <;> split <;> split <;> simp
  obtain ⟨he, hw, hr, hs, hf, hl, hi, hg⟩ := hfields t rp up ts
  refine ⟨he, hw, ?_, hs, hf, hl, hi, hg, ?_, ?_, ?_⟩
  · rw [hr, hw]
  · rw [hw]
    exact ts_le_forward_left _ _
  · intro hrw
    rw [hr]
    exact ts_le_trans hrw (ts_le_forward_left _ _)
  · intro rp2 up2 ts2
    obtain ⟨he2, hw2, hr2, _, _, _, _, _⟩ := hfields (t.restart rp up ts) rp2 up2 ts2
    refine ⟨?_, ?_, ?_⟩
    · omega
    · rw [hr2, hr, hw]
      exact ts_le_forward_left _ _
    · rw [hw2]
      exact ts_le_forward_left _ _

/-- Witness for C3: the conditional read-timestamp clause discharged at a
concrete transaction. -/
theorem restart_epoch_timestamps_and_state_witness :
    (Transaction.restart
        ⟨1, [], 0, 0, 3, 7, .pending, ⟨4, 0⟩, ⟨5, 0⟩, ⟨4, 0⟩, ⟨4, 0⟩, ⟨6, 0⟩, true,
          [⟨[1], [2]⟩], [3], [(1, 2)], [], 0, false⟩ 2 9 ⟨6, 0⟩).epoch = 1 ∧
    TS.lessEq (⟨4, 0⟩ : TS)
      (Transaction.restart
        ⟨1, [], 0, 0, 3, 7, .pending, ⟨4, 0⟩, ⟨5, 0⟩, ⟨4, 0⟩, ⟨4, 0⟩, ⟨6, 0⟩, true,
          [⟨[1], [2]⟩], [3], [(1, 2)], [], 0, false⟩ 2 9 ⟨6, 0⟩).readTimestamp = true := by
  have h := restart_epoch_timestamps_and_state
    ⟨1, [], 0, 0, 3, 7, .pending, ⟨4, 0⟩, ⟨5, 0⟩, ⟨4, 0⟩, ⟨4, 0⟩, ⟨6, 0⟩, true,
      [⟨[1], [2]⟩], [3], [(1, 2)], [], 0, false⟩ 2 9 ⟨6, 0⟩
  exact ⟨h.1, h.2.2.2.2.2.2.2.2.2.1 (by decide)⟩

/-! ## Claim C4: priority sentinel stickiness -/

/-- C4. `UpgradePriority(candidate)` leaves a transaction whose priority is
the minimum-priority sentinel unchanged for every candidate, and otherwise
sets the priority to the maximum of the current priority and the
candidate; the two priority upgrades performed inside `Restart` obey the
same rule (sentinel sticky; otherwise the maximum of the current priority
and both offered priorities). -/
theorem upgradePriority_sentinel_sticky (t : Transaction) (c rp up : Nat) (ts : TS) :
    (t.priority = minTxnPriority → (t.upgradePriority c).priority = t.priority) ∧
    (t.priority ≠ minTxnPriority → (t.upgradePriority c).priority = max t.priority c) ∧
    (t.priority = minTxnPriority → (t.restart rp up ts).priority = t.priority) ∧
    (t.priority ≠ minTxnPriority →
      (t.restart rp up ts).priority = max (max t.priority rp) up) := by
  refine ⟨?_, ?_, ?_, ?_⟩
  · intro h
    simp [Transaction.upgradePriority, h]
  · intro h
    simp only [Transaction.upgradePriority]
    split <;> rename_i hc
    · simp
      omega
    · simp only [minTxnPriority] at h hc
      simp
      omega
  · intro h
    simp only [Transaction.restart, Transaction.bumpEpoch, Transaction.upgradePriority]
    split <;> simp_all [minTxnPriority]
  · intro h
    simp only [Transaction.restart, Transaction.bumpEpoch, Transaction.upgradePriority,
      minTxnPriority] at h ⊢
    split <;> split <;> rename_i h1 h2 <;> split <;> rename_i h3 <;> simp_all <;> omega

/-- Witness for C4 at a concrete transaction with sentinel priority and one
with a non-sentinel priority (via two applications at different inputs
packaged over the same theorem). -/
theorem upgradePriority_sentinel_sticky_witness :
    ((⟨1, [], 0, 0, 0, 0, .pending, TS.empty, ⟨1, 0⟩, TS.empty, TS.empty, TS.empty, false,
        [], [], [], [], 0, false⟩ : Transaction).upgradePriority 5).priority = 0 ∧
    ((⟨1, [], 0, 0, 3, 0, .pending, TS.empty, ⟨1, 0⟩, TS.empty, TS.empty, TS.empty, false,
        [], [], [], [], 0, false⟩ : Transaction).upgradePriority 5).priority = max 3 5 := by
  constructor
  · exact (upgradePriority_sentinel_sticky
      ⟨1, [], 0, 0, 0, 0, .pending, TS.empty, ⟨1, 0⟩, TS.empty, TS.empty, TS.empty, false,
        [], [], [], [], 0, false⟩ 5 0 0 TS.empty).1 (by decide)
  · exact (upgradePriority_sentinel_sticky
      ⟨1, [], 0, 0, 3, 0, .pending, TS.empty, ⟨1, 0⟩, TS.empty, TS.empty, TS.empty, false,
        [], [], [], [], 0, false⟩ 5 0 0 TS.empty).2.1 (by decide)

/-! ## Claim C1: `AddMVCCKey` duplicate handling -/

/-- C1. When the incoming key equals the most recently buffered key:
(a) in skip-duplicates mode, an add whose value is byte-identical to the
last buffered value returns no error and leaves the batcher state (in
particular the buffer) unchanged, while a differing value returns a
duplicate-key error; (b) in ingest-all mode, an add with the same timestamp
and identical value is silently absorbed, while the same (key, timestamp)
with a differing value returns a duplicate-key error; (c) with neither mode
set, any repeat of the last key returns a duplicate-key error. -/
theorem addMVCCKey_duplicate_handling
    (cfg : BatcherConfig) (s : BatcherState) (k : Bytes) (ts : TS) (v : Bytes)
    (hne : s.batchEndKey ≠ []) (heq : s.batchEndKey = k) :
    (cfg.skipDuplicates = true → cfg.ingestAll = false →
      (v = s.batchEndValue → addMVCCKey cfg s k ts v = Except.ok s) ∧
      (v ≠ s.batchEndValue → addMVCCKey cfg s k ts v = Except.error ⟨k, v⟩)) ∧
    (cfg.ingestAll = true → ts = s.batchEndTimestamp →
      (v = s.batchEndValue → addMVCCKey cfg s k ts v = Except.ok s) ∧
      (v ≠ s.batchEndValue → addMVCCKey cfg s k ts v = Except.error ⟨k, v⟩)) ∧
    (cfg.skipDuplicates = false → cfg.ingestAll = false →
      addMVCCKey cfg s k ts v = Except.error ⟨k, v⟩) := by
  have hk : k ≠ [] := heq ▸ hne
  refine ⟨?_, ?_, ?_⟩
  · intro hskip hall
    constructor
    · intro hv
      simp [addMVCCKey, hk, hne, heq, hskip, hall, hv]
    · intro hv
      simp [addMVCCKey, hk, hne, heq, hskip, hall, hv]
  · intro hall hts
    constructor
    · intro hv
      simp [addMVCCKey, hk, hne, heq, hall, hts, hv]
    · intro hv
      simp [addMVCCKey, hk, hne, heq, hall, hts, hv]
  · intro hskip hall
    simp [addMVCCKey, hk, hne, heq, hskip, hall]

/-- Witness for C1: the spec's concrete scenario — skip-duplicates mode,
buffered key "a"@5 with value "x"; re-adding "a"@5/"x" is a no-op and
adding "a"@5/"y" is a duplicate-key error. -/
theorem addMVCCKey_duplicate_handling_witness :
    (addMVCCKey ⟨true, false, none, 1000, fun k => some k⟩
        ⟨[97], [97], [120], ⟨5, 0⟩, false, none, [⟨[97], ⟨5, 0⟩, [120]⟩], []⟩
        [97] ⟨5, 0⟩ [120] =
      Except.ok ⟨[97], [97], [120], ⟨5, 0⟩, false, none, [⟨[97], ⟨5, 0⟩, [120]⟩], []⟩) ∧
    (addMVCCKey ⟨true, false, none, 1000, fun k => some k⟩
        ⟨[97], [97], [120], ⟨5, 0⟩, false, none, [⟨[97], ⟨5, 0⟩, [120]⟩], []⟩
        [97] ⟨5, 0⟩ [121] = Except.error ⟨[97], [121]⟩) := by
  have h := addMVCCKey_duplicate_handling ⟨true, false, none, 1000, fun k => some k⟩
    ⟨[97], [97], [120], ⟨5, 0⟩, false, none, [⟨[97], ⟨5, 0⟩, [120]⟩], []⟩
    [97] ⟨5, 0⟩ [120] (by decide) rfl
  have h2 := addMVCCKey_duplicate_handling ⟨true, false, none, 1000, fun k => some k⟩
    ⟨[97], [97], [120], ⟨5, 0⟩, false, none, [⟨[97], ⟨5, 0⟩, [120]⟩], []⟩
    [97] ⟨5, 0⟩ [121] (by decide) rfl
  exact ⟨(h.1 rfl rfl).1 rfl, (h2.1 rfl rfl).2 (by decide)⟩

/-! ## Claim C2: `Value.Verify` and the checksum digest -/

/-- C2 counterexample: a value whose raw bytes are the single byte `[7]` has
a zero (absent) stored checksum, yet `Verify` fails on it — the header
check rejects any non-empty value shorter than the five-byte header, so
"a zero/absent checksum always verifies successfully" is false as stated. -/
theorem verify_zero_checksum_counterexample :
    vChecksum [7] = 0 ∧ verify (fun _ => 1) [] [7] = some false := by
  decide

/-- C2 (amended): for a value whose header verifies (empty raw bytes, or at
least header-sized): a zero/absent stored checksum always verifies
successfully; when the stored checksum is non-zero and the digest
computation completes with result `c`, `Verify(key)` succeeds exactly when
`c` equals the stored checksum (and fails exactly when it differs); when the
stored checksum is non-zero but the extended-header length prefix overruns
the buffer, `Verify` panics rather than returning; and whenever the digest
computation is reached its result is non-zero (a genuinely-zero digest is
folded to 1), so a computed checksum never collides with the zero
"uninitialized" sentinel. -/
theorem verify_checksum_characterization (crc : Bytes → Nat) (key v : Bytes)
    (hlen : v.length = 0 ∨ headerSize ≤ v.length) :
    (vChecksum v = 0 → verify crc key v = some true) ∧
    (∀ c, computeChecksumRaw crc key v = some c →
      (verify crc key v = some true ↔ (vChecksum v = 0 ∨ c = vChecksum v))) ∧
    (∀ c, computeChecksumRaw crc key v = some c → vChecksum v ≠ 0 → c ≠ vChecksum v →
      verify crc key v = some false) ∧
    (vChecksum v ≠ 0 → computeChecksumRaw crc key v = none → verify crc key v = none) ∧
    (∀ rb : Bytes, digestReached rb →
      computeChecksumRaw crc key rb ≠ none ∧ computeChecksumRaw crc key rb ≠ some 0) := by
  have hhdr : verifyHeader v = true := by
    rcases hlen with h | h
    · simp [verifyHeader, h]
    · simp only [verifyHeader, headerSize, tagPos, checksumSize] at h ⊢
      simp
      omega
  refine ⟨?_, ?_, ?_, ?_, ?_⟩
  · intro hc
    simp [verify, hhdr, hc]
  · intro c hc
    by_cases h0 : vChecksum v = 0
    · simp [verify, hhdr, h0]
    · by_cases hm : c = vChecksum v
      · simp [verify, hhdr, h0, hc, hm]
      · simp [verify, hhdr, h0, hc, hm]
  · intro c hc h0 hm
    simp [verify, hhdr, h0, hc, hm]
  · intro h0 hn
    simp [verify, hhdr, h0, hn]
  · intro rb hreach
    obtain ⟨h1, h2⟩ := hreach
    have hn1 : ¬ rb.length < headerSize := by omega
    by_cases hext : rb.get? tagPos = some extendedSentinel
    · have hsvs := h2 hext
      have hnp : ¬ rb.length < u32wrap (extendedMVCCValLenSize + be32 rb + 1) := by
        omega
      have hlen2 :
          ¬ (rb.drop (u32wrap (extendedMVCCValLenSize + be32 rb + 1))).length < headerSize := by
        simp only [List.length_drop]
        omega
      simp only [computeChecksumRaw, hn1, if_false, hext, if_true, hnp, hlen2]
      constructor <;> split <;> simp_all
    · simp only [computeChecksumRaw, hn1, if_false, hext]
      constructor <;> split <;> simp_all

/-- Witness for C2's amended theorem at a concrete five-byte value whose
digest computation completes. -/
theorem verify_checksum_characterization_witness :
    (([0, 0, 0, 1, 3] : Bytes).length = 0 ∨ headerSize ≤ ([0, 0, 0, 1, 3] : Bytes).length) ∧
    (computeChecksumRaw (fun _ => 1) [] [0, 0, 0, 1, 3] = some 1) ∧
    (verify (fun _ => 1) [] [0, 0, 0, 1, 3] = some true ↔
      (vChecksum [0, 0, 0, 1, 3] = 0 ∨ 1 = vChecksum [0, 0, 0, 1, 3])) :=
  ⟨Or.inr (by decide), by decide,
    (verify_checksum_characterization (fun _ => 1) [] [0, 0, 0, 1, 3]
      (Or.inr (by decide))).2.1 1 (by decide)⟩

/-! ## Claim C10: `Value.InitChecksum` -/

/-- C10. `InitChecksum` is a no-op on nil (empty) raw bytes; it takes the
explicit panic branch exactly when the stored checksum is already
non-zero; that panic branch is unreachable under the precondition that the
stored checksum is zero (a corrupt extended-header length prefix can still
raise the separate slice-bounds panic inside the checksum computation);
and when the stored checksum is zero and the computation completes, the
computed checksum is written. -/
theorem initChecksum_semantics (crc : Bytes → Nat) (key v : Bytes) :
    (initChecksum crc key [] = InitChecksumResult.ok []) ∧
    (vChecksum v ≠ 0 →
      initChecksum crc key v = InitChecksumResult.alreadyInitializedPanic) ∧
    (vChecksum v = 0 →
      initChecksum crc key v ≠ InitChecksumResult.alreadyInitializedPanic) ∧
    (vChecksum v = 0 → ∀ c, computeChecksumRaw crc key v = some c →
      initChecksum crc key v = InitChecksumResult.ok (setChecksum v c)) := by
  refine ⟨?_, ?_, ?_, ?_⟩
  · simp [initChecksum]
  · intro hc
    have hv : v ≠ [] := by
      intro h
      subst h
      simp [vChecksum, checksumSize] at hc
    simp [initChecksum, hv, hc]
  · intro hc
    by_cases hv : v = []
    · subst hv
      simp [initChecksum]
    · simp only [initChecksum, hv, if_false, hc]
      simp only [ne_eq, not_true_eq_false, if_false]
      split <;> simp
  · intro hc c hcc
    by_cases hv : v = []
    · subst hv
      have : c = 0 := by
        simp [computeChecksumRaw, headerSize, tagPos, checksumSize] at hcc
        omega
      subst this
      simp [initChecksum, setChecksum, checksumSize]
    · simp [initChecksum, hv, hc, hcc]

/-- Witness for C10 at concrete values: one with a non-zero stored checksum
(the explicit panic branch) and one with a zero stored checksum whose
computation completes (the checksum is written). -/
theorem initChecksum_semantics_witness :
    (initChecksum (fun _ => 7) [] [1, 0, 0, 0, 3] =
      InitChecksumResult.alreadyInitializedPanic) ∧
    (initChecksum (fun _ => 7) [] [0, 0, 0, 0, 3] =
      InitChecksumResult.ok (setChecksum [0, 0, 0, 0, 3] 7)) :=
  ⟨(initChecksum_semantics (fun _ => 7) [] [1, 0, 0, 0, 3]).2.1 (by decide),
   (initChecksum_semantics (fun _ => 7) [] [0, 0, 0, 0, 3]).2.2.2 (by decide) 7 (by decide)⟩

/-! ## Theorems: `Transaction.Update` stage lemmas -/

theorem updateKeyIso_preserves (t o : Transaction) :
    (updateKeyIso t o).readTimestamp = t.readTimestamp ∧
    (updateKeyIso t o).writeTimestamp = t.writeTimestamp ∧
    (updateKeyIso t o).lastHeartbeat = t.lastHeartbeat ∧
    (updateKeyIso t o).globalUncertaintyLimit = t.globalUncertaintyLimit ∧
    (updateKeyIso t o).minTimestamp = t.minTimestamp ∧
    (updateKeyIso t o).priority = t.priority ∧
    (updateKeyIso t o).status = t.status ∧
    (updateKeyIso t o).epoch = t.epoch := by
  unfold updateKeyIso
  split <;> simp

theorem updateEpochScoped_preserves (t o : Transaction) :
    (updateEpochScoped t o).readTimestamp = t.readTimestamp ∧
    (updateEpochScoped t o).writeTimestamp = t.writeTimestamp ∧
    (updateEpochScoped t o).lastHeartbeat = t.lastHeartbeat ∧
    (updateEpochScoped t o).globalUncertaintyLimit = t.globalUncertaintyLimit ∧
    (updateEpochScoped t o).minTimestamp = t.minTimestamp ∧
    (updateEpochScoped t o).priority = t.priority := by
  unfold updateEpochScoped
  split
  · split <;> simp
  · split
    · refine ⟨?_, ?_, ?_, ?_, ?_, ?_⟩
      · simp [apply_ite (fun x : Transaction => x.readTimestamp)]
      · simp [apply_ite (fun x : Transaction => x.writeTimestamp)]
      · simp [apply_ite (fun x : Transaction => x.lastHeartbeat)]
      · simp [apply_ite (fun x : Transaction => x.globalUncertaintyLimit)]
      · simp [apply_ite (fun x : Transaction => x.minTimestamp)]
      · simp [apply_ite (fun x : Transaction => x.priority)]
    · cases ho : o.status <;> simp [ho]

theorem updateEpochScoped_status_absorbs_abort (t o : Transaction) :
    (o.epoch < t.epoch → o.status = .aborted → (updateEpochScoped t o).status = .aborted) ∧
    (t.epoch = o.epoch → t.status = .aborted → (updateEpochScoped t o).status = .aborted) := by
  constructor
  · intro hlt ha
    have h1 : ¬ t.epoch < o.epoch := by omega
    have h2 : ¬ t.epoch = o.epoch := by omega
    unfold updateEpochScoped
    rw [if_neg h1, if_neg h2]
    simp [ha]
  · intro heq ha
    have h1 : ¬ t.epoch < o.epoch := by omega
    unfold updateEpochScoped
    rw [if_neg h1, if_pos heq]
    simp [apply_ite (fun x : Transaction => x.status), ha, statusForwardEqualEpoch]

theorem updateForwardTimestamps_fields (t o : Transaction) :
    (updateForwardTimestamps t o).readTimestamp = TS.forward t.readTimestamp o.readTimestamp ∧
    (updateForwardTimestamps t o).writeTimestamp = TS.forward t.writeTimestamp o.writeTimestamp ∧
    (updateForwardTimestamps t o).lastHeartbeat = TS.forward t.lastHeartbeat o.lastHeartbeat ∧
    (updateForwardTimestamps t o).globalUncertaintyLimit =
      TS.forward t.globalUncertaintyLimit o.globalUncertaintyLimit ∧
    (updateForwardTimestamps t o).minTimestamp = t.minTimestamp ∧
    (updateForwardTimestamps t o).priority = t.priority ∧
    (updateForwardTimestamps t o).status = t.status := by
  unfold updateForwardTimestamps
  simp

theorem updateMinTimestamp_fields (t o : Transaction) :
    (updateMinTimestamp t o).readTimestamp = t.readTimestamp ∧
    (updateMinTimestamp t o).writeTimestamp = t.writeTimestamp ∧
    (updateMinTimestamp t o).lastHeartbeat = t.lastHeartbeat ∧
    (updateMinTimestamp t o).globalUncertaintyLimit = t.globalUncertaintyLimit ∧
    (updateMinTimestamp t o).priority = t.priority ∧
    (updateMinTimestamp t o).status = t.status ∧
    (t.minTimestamp ≠ TS.empty → o.minTimestamp ≠ TS.empty →
      (updateMinTimestamp t o).minTimestamp = TS.backward t.minTimestamp o.minTimestamp) := by
  unfold updateMinTimestamp
  split_ifs <;> simp_all

theorem updateAbsorbObserved_eq (t o : Transaction) :
    ∃ obs, updateAbsorbObserved t o = { t with observedTimestamps := obs } := by
  unfold updateAbsorbObserved
  generalize o.observedTimestamps = l
  induction l generalizing t with
  | nil => exact ⟨t.observedTimestamps, rfl⟩
  | cons p rest ih =>
    obtain ⟨obs, h⟩ := ih (t.updateObserved p.1 p.2)
    refine ⟨obs, ?_⟩
    simp only [List.foldl_cons]
    rw [h]
    simp [Transaction.updateObserved]

theorem upgradePriority_preserves (t : Transaction) (c : Nat) :
    (t.upgradePriority c).readTimestamp = t.readTimestamp ∧
    (t.upgradePriority c).writeTimestamp = t.writeTimestamp ∧
    (t.upgradePriority c).lastHeartbeat = t.lastHeartbeat ∧
    (t.upgradePriority c).globalUncertaintyLimit = t.globalUncertaintyLimit ∧
    (t.upgradePriority c).minTimestamp = t.minTimestamp ∧
    (t.upgradePriority c).status = t.status := by
  unfold Transaction.upgradePriority
  split <;> simp

theorem updateTrailingFields_preserves (t o : Transaction) :
    (updateTrailingFields t o).readTimestamp = t.readTimestamp ∧
    (updateTrailingFields t o).writeTimestamp = t.writeTimestamp ∧
    (updateTrailingFields t o).lastHeartbeat = t.lastHeartbeat ∧
    (updateTrailingFields t o).globalUncertaintyLimit = t.globalUncertaintyLimit ∧
    (updateTrailingFields t o).minTimestamp = t.minTimestamp ∧
    (updateTrailingFields t o).status = t.status := by
  unfold updateTrailingFields
  split_ifs <;> simp

/-- The successful-merge case of `Transaction.Update`: with a same non-empty
id and an initialized `o`, the result is the staged merge. -/
theorem update_eq_some (t o : Transaction)
    (hid : t.id = o.id) (hid0 : t.id ≠ 0)
    (hw : o.writeTimestamp ≠ TS.empty) :
    t.update o =
      some (updateTrailingFields
        ((updateAbsorbObserved
          (updateMinTimestamp
            (updateForwardTimestamps (updateEpochScoped (updateKeyIso t o) o) o) o)
          o).upgradePriority o.priority) o) := by
  have ho : ¬ (o.id = 0 ∨ o.writeTimestamp = TS.empty) := by
    rintro (h | h)
    · exact hid0 (by omega)
    · exact hw h
  have ho0 : o.id ≠ 0 := by rw [← hid]; exact hid0
  simp [Transaction.update, ho, hid0, hid, ho0, hw]

/-! ## Claim C5: timestamp monotonicity across `Transaction.Update` -/

/-- C5 counterexample: two transactions with the same non-empty id whose
merge moves the minimum timestamp *backward* — `Update` deliberately sets
`MinTimestamp` to the minimum seen by either transaction, so "every
timestamp field never regresses" is false as stated for the minimum
timestamp. -/
theorem update_min_timestamp_counterexample :
    (txnMin5.update txnMin3).map
      (fun t2 => TS.less t2.minTimestamp txnMin5.minTimestamp) = some true := by
  decide

/-- C5 (amended): for transactions with the same non-empty id, a successful
`Update` never regresses the read timestamp, write timestamp, global
uncertainty limit, or last heartbeat; the minimum timestamp is instead set
to the minimum seen by either transaction (when both are non-empty), and
so can move backward. -/
theorem update_timestamps_monotonic (t o t2 : Transaction)
    (hid : t.id = o.id) (hid0 : t.id ≠ 0)
    (h : t.update o = some t2) :
    TS.lessEq t.readTimestamp t2.readTimestamp = true ∧
    TS.lessEq t.writeTimestamp t2.writeTimestamp = true ∧
    TS.lessEq t.globalUncertaintyLimit t2.globalUncertaintyLimit = true ∧
    TS.lessEq t.lastHeartbeat t2.lastHeartbeat = true ∧
    (t.minTimestamp ≠ TS.empty → o.minTimestamp ≠ TS.empty →
      t2.minTimestamp = TS.backward t.minTimestamp o.minTimestamp) := by
  have hw : o.writeTimestamp ≠ TS.empty := by
    intro hweq
    rw [Transaction.update, if_pos (Or.inr hweq)] at h
    exact Option.noConfusion h
  rw [update_eq_some t o hid hid0 hw] at h
  have ht2 := Option.some.inj h
  set tA := updateKeyIso t o with hA
  set tB := updateEpochScoped tA o with hB
  set tC := updateForwardTimestamps tB o with hC
  set tD := updateMinTimestamp tC o with hD
  set tE := updateAbsorbObserved tD o with hE
  set tF := tE.upgradePriority o.priority with hF
  obtain ⟨pA1, pA2, pA3, pA4, pA5, _, _, _⟩ := updateKeyIso_preserves t o
  obtain ⟨pB1, pB2, pB3, pB4, pB5, _⟩ := updateEpochScoped_preserves tA o
  obtain ⟨pC1, pC2, pC3, pC4, pC5, _, _⟩ := updateForwardTimestamps_fields tB o
  obtain ⟨pD1, pD2, pD3, pD4, _, _, pDmin⟩ := updateMinTimestamp_fields tC o
  obtain ⟨obs, pE⟩ := updateAbsorbObserved_eq tD o
  obtain ⟨pF1, pF2, pF3, pF4, pF5, _⟩ := upgradePriority_preserves tE o.priority
  obtain ⟨pG1, pG2, pG3, pG4, pG5, _⟩ := updateTrailingFields_preserves tF o
  rw [← hE] at pE
  have hE1 : tE.readTimestamp = tD.readTimestamp := by rw [pE]
  have hE2 : tE.writeTimestamp = tD.writeTimestamp := by rw [pE]
  have hE3 : tE.lastHeartbeat = tD.lastHeartbeat := by rw [pE]
  have hE4 : tE.globalUncertaintyLimit = tD.globalUncertaintyLimit := by rw [pE]
  have hE5 : tE.minTimestamp = tD.minTimestamp := by rw [pE]
  refine ⟨?_, ?_, ?_, ?_, ?_⟩
  · rw [← ht2, pG1, pF1, hE1, pD1, pC1, pB1, pA1]
    exact ts_le_forward_left _ _
  · rw [← ht2, pG2, pF2, hE2, pD2, pC2, pB2, pA2]
    exact ts_le_forward_left _ _
  · rw [← ht2, pG4, pF4, hE4, pD4, pC4, pB4, pA4]
    exact ts_le_forward_left _ _
  · rw [← ht2, pG3, pF3, hE3, pD3, pC3, pB3, pA3]
    exact ts_le_forward_left _ _
  · intro hm1 hm2
    have hCmin : tC.minTimestamp = t.minTimestamp := by rw [pC5, pB5, pA5]
    rw [← ht2, pG5, pF5, hE5, pDmin (by rw [hCmin]; exact hm1) hm2, hCmin]

/-- Witness for C5's amended theorem at a concrete pair of transactions. -/
theorem update_timestamps_monotonic_witness :
    (txnMin5.update txnMin3).map
      (fun t2 => TS.lessEq txnMin5.readTimestamp t2.readTimestamp) = some true := by
  rcases h : txnMin5.update txnMin3 with _ | t2
  · exact absurd h (by decide)
  · have hm := (update_timestamps_monotonic txnMin5 txnMin3 t2 rfl (by decide) h).1
    simp [hm]

/-! ## Claim C6: abort monotonicity in `Transaction.Update` -/

/-- C6. For transactions with the same non-empty id: (a) when `t`'s epoch is
strictly higher than `o`'s and `o` is ABORTED, the merge absorbs the abort
(once aborted, always aborted, even from an earlier epoch); (b) when `t` is
ABORTED and the epochs are equal, the merge never moves the status to
COMMITTED — it stays ABORTED even if `o` is COMMITTED. -/
theorem update_abort_monotonic (t o t2 : Transaction)
    (hid : t.id = o.id) (hid0 : t.id ≠ 0)
    (h : t.update o = some t2) :
    (o.epoch < t.epoch → o.status = .aborted → t2.status = .aborted) ∧
    (t.status = .aborted → t.epoch = o.epoch → t2.status ≠ .committed) := by
  have hw : o.writeTimestamp ≠ TS.empty := by
    intro hweq
    rw [Transaction.update, if_pos (Or.inr hweq)] at h
    exact Option.noConfusion h
  rw [update_eq_some t o hid hid0 hw] at h
  have ht2 := Option.some.inj h
  set tA := updateKeyIso t o with hA
  set tB := updateEpochScoped tA o with hB
  set tC := updateForwardTimestamps tB o with hC
  set tD := updateMinTimestamp tC o with hD
  set tE := updateAbsorbObserved tD o with hE
  set tF := tE.upgradePriority o.priority with hF
  obtain ⟨_, _, _, _, _, _, pA7, pA8⟩ := updateKeyIso_preserves t o
  obtain ⟨_, _, _, _, _, _, pC7⟩ := updateForwardTimestamps_fields tB o
  obtain ⟨_, _, _, _, _, pD6, _⟩ := updateMinTimestamp_fields tC o
  obtain ⟨obs, pE⟩ := updateAbsorbObserved_eq tD o
  rw [← hE] at pE
  have hE6 : tE.status = tD.status := by rw [pE]
  obtain ⟨_, _, _, _, _, pF6⟩ := upgradePriority_preserves tE o.priority
  obtain ⟨_, _, _, _, _, pG6⟩ := updateTrailingFields_preserves tF o
  have hstat : t2.status = tB.status := by
    rw [← ht2, pG6, pF6, hE6, pD6, pC7]
  constructor
  · intro hlt ha
    rw [hstat, hB]
    exact (updateEpochScoped_status_absorbs_abort tA o).1 (by rw [pA8]; exact hlt) ha
  · intro ha heq
    rw [hstat, hB]
    rw [(updateEpochScoped_status_absorbs_abort tA o).2 (by rw [pA8]; exact heq)
      (by rw [pA7]; exact ha)]
    intro hc
    exact TxnStatus.noConfusion hc

/-- Witness for C6 at a concrete pair: `t` at epoch 2 merged with an ABORTED
`o` at epoch 1 becomes ABORTED. -/
theorem update_abort_monotonic_witness :
    (txnEpoch2.update txnAborted1).map Transaction.status = some TxnStatus.aborted := by
  rcases h : txnEpoch2.update txnAborted1 with _ | t2
  · exact absurd h (by decide)
  · have hs := (update_abort_monotonic txnEpoch2 txnAborted1 t2 rfl (by decide) h).1
      (by decide) rfl
    simp [hs]

/-! ## Claim C7: lease equivalence asymmetry -/

theorem normalizeLease_typ (l : Lease) : (normalizeLease l).typ = l.typ := by
  simp [normalizeLease, Lease.typ]

theorem typ_expiration_iff (l : Lease) :
    l.typ = some LeaseType.expiration ↔ (l.epoch = 0 ∧ l.term = 0) := by
  by_cases h1 : l.epoch = 0 <;> by_cases h2 : l.term = 0 <;> simp [Lease.typ, h1, h2]

theorem typ_epoch_iff (l : Lease) :
    l.typ = some LeaseType.epoch ↔ (l.epoch ≠ 0 ∧ l.term = 0) := by
  by_cases h1 : l.epoch = 0 <;> by_cases h2 : l.term = 0 <;> simp [Lease.typ, h1, h2]

theorem typ_leader_iff (l : Lease) :
    l.typ = some LeaseType.leader ↔ (l.epoch = 0 ∧ l.term ≠ 0) := by
  by_cases h1 : l.epoch = 0 <;> by_cases h2 : l.term = 0 <;> simp [Lease.typ, h1, h2]

/-- C7. For an expiration-based lease `E` and an epoch-based lease `Q`
agreeing on replica and start (the promotion the code assumes is only
proposed when `E`'s expiration is within `Q`'s guaranteed validity),
`Equivalent(E, Q, true)` is true while `Equivalent(Q, E, true)` is false;
and, in general, a demotion from an Epoch- or Leader-type lease to an
Expiration-type lease is never judged equivalent. -/
theorem lease_equivalence_asymmetry (E Q : Lease)
    (hEe : E.epoch = 0) (hEt : E.term = 0)
    (hQe : Q.epoch ≠ 0) (hQt : Q.term = 0)
    (hstart : E.start = Q.start)
    (hnode : E.replica.nodeID = Q.replica.nodeID)
    (hstore : E.replica.storeID = Q.replica.storeID)
    (hrid : E.replica.replicaID = Q.replica.replicaID)
    (hQexp : Q.expiration = none)
    (hEmin : E.minExpiration = TS.empty) :
    E.equivalent Q true = some true ∧
    Q.equivalent E true = some false ∧
    (∀ (l n : Lease) (f : Bool),
      (l.typ = some LeaseType.epoch ∨ l.typ = some LeaseType.leader) →
      n.typ = some LeaseType.expiration → l.equivalent n f = some false) := by
  have hEtyp : E.typ = some LeaseType.expiration := (typ_expiration_iff E).mpr ⟨hEe, hEt⟩
  have hQtyp : Q.typ = some LeaseType.epoch := (typ_epoch_iff Q).mpr ⟨hQe, hQt⟩
  refine ⟨?_, ?_, ?_⟩
  · simp only [Lease.equivalent, normalizeLease_typ, hEtyp, hQtyp]
    simp [normalizeLease, Lease.mk.injEq, ReplicaDescriptor.mk.injEq,
      hstart, hnode, hstore, hrid, hQexp, hEmin, hEe, hEt, hQt]
  · simp only [Lease.equivalent, normalizeLease_typ, hQtyp]
    simp only [normalizeLease]
    split_ifs with h1 h2 <;>
      simp_all [Lease.mk.injEq]
  · intro l n f htyp hn
    obtain ⟨hne, hnt⟩ := (typ_expiration_iff n).mp hn
    rcases htyp with h | h
    · obtain ⟨hle, hlt⟩ := (typ_epoch_iff l).mp h
      simp only [Lease.equivalent, normalizeLease_typ, h]
      simp only [normalizeLease]
      split_ifs with h1 h2 <;> simp_all [Lease.mk.injEq]
    · obtain ⟨hle, hlt⟩ := (typ_leader_iff l).mp h
      simp only [Lease.equivalent, normalizeLease_typ, h]
      simp only [normalizeLease]
      split_ifs with h1 h2 <;> simp_all [Lease.mk.injEq]

/-- Witness for C7 at the concrete expiration-based lease `leaseE` and
epoch-based lease `leaseQ`. -/
theorem lease_equivalence_asymmetry_witness :
    leaseE.equivalent leaseQ true = some true ∧
    leaseQ.equivalent leaseE true = some false := by
  have h := lease_equivalence_asymmetry leaseE leaseQ rfl rfl (by decide) rfl rfl rfl rfl rfl
    rfl rfl
  exact ⟨h.1, h.2.1⟩

/-! ## Claim C8: range-boundary flush -/

theorem foldl_add_entryBytes_ge (l : List Entry) (n : Nat) :
    n ≤ l.foldl (fun a e => a + entryBytes e) n := by
  induction l generalizing n with
  | nil => simp
  | cons e rest ih =>
    simp only [List.foldl_cons]
    exact Nat.le_trans (Nat.le_add_right n (entryBytes e)) (ih (n + entryBytes e))

theorem dataSize_ne_zero (s : BatcherState) (h : s.buffer ≠ []) : dataSize s ≠ 0 := by
  unfold dataSize
  rcases hb : s.buffer with _ | ⟨e, rest⟩
  · exact absurd hb h
  · simp only [List.foldl_cons]
    have h1 := foldl_add_entryBytes_ge rest (0 + entryBytes e)
    have h2 : 13 ≤ entryBytes e := by simp [entryBytes]
    omega

/-- C8. With a range-boundary cache configured: (first conjunct) the first
key added after a reset looks up its containing range and remembers that
range's end key `B` as the flush-before boundary; (second conjunct) a
subsequent add whose key reaches or passes `B` into a non-empty buffer
first flushes with reason range-boundary — the flushed file covering
exactly `[firstBufferedKey, lastBufferedKey.Next())` — and resets the
batcher (clearing the buffer and the remembered boundary) before accepting
the new key. -/
theorem range_boundary_flush (cfg : BatcherConfig) (f : Bytes → Option Bytes)
    (hrc : cfg.rc = some f) (hthr : 0 < cfg.sizeThreshold) :
    (∀ (s0 : BatcherState) (k1 v1 : Bytes) (ts1 : TS) (B : Bytes),
      s0.flushKeyChecked = false → s0.flushKey = none → s0.batchEndKey = [] →
      s0.batchStartKey = [] → s0.buffer = [] →
      f k1 = some B → byteCompare k1 B = Ordering.lt →
      ∃ s1, addMVCCKey cfg s0 k1 ts1 v1 = Except.ok s1 ∧
        s1.flushKey = some B ∧ s1.flushKeyChecked = true ∧
        s1.batchStartKey = k1 ∧ s1.batchEndKey = k1 ∧
        s1.buffer = [⟨k1, ts1, v1⟩] ∧ s1.flushed = s0.flushed) ∧
    (∀ (s : BatcherState) (k v : Bytes) (ts : TS) (B : Bytes),
      s.flushKeyChecked = true → s.flushKey = some B →
      byteCompare B k ≠ Ordering.gt →
      s.batchEndKey ≠ k → s.buffer ≠ [] →
      ∃ s2, addMVCCKey cfg s k ts v = Except.ok s2 ∧
        s2.flushed = s.flushed ++
          [⟨FlushReason.range, s.batchStartKey, keyNext s.batchEndKey, s.buffer⟩] ∧
        s2.buffer = [⟨k, ts, v⟩] ∧ s2.batchStartKey = k ∧ s2.batchEndKey = k ∧
        s2.flushKey = none ∧ s2.flushKeyChecked = false) := by
  constructor
  · intro s0 k1 v1 ts1 B hchk hfk hbek hbsk hbuf hlook hlt
    have hgt : byteCompare B k1 = Ordering.gt := by
      rw [byteCompare_swap k1 B, hlt]
      rfl
    have hts : ¬ cfg.sizeThreshold = 0 := by omega
    have hfl : flushIfNeeded cfg s0 k1 =
        { s0 with flushKeyChecked := true, flushKey := some B } := by
      simp [flushIfNeeded, hchk, hrc, hlook, hgt, dataSize, hbuf, Nat.le_zero, hts]
    have hadd : addMVCCKey cfg s0 k1 ts1 v1 =
        Except.ok (acceptKey { s0 with flushKeyChecked := true, flushKey := some B }
          k1 ts1 v1) := by
      simp [addMVCCKey, hbek, hfl]
    refine ⟨_, hadd, ?_, ?_, ?_, ?_, ?_, ?_⟩ <;> simp [acceptKey, hbsk, hbuf]
  · intro s k v ts B hchk hfk hge hnd hbuf
    have hds : dataSize s ≠ 0 := dataSize_ne_zero s hbuf
    have hdo : s.doFlush FlushReason.range =
        { s with flushed := s.flushed ++
            [⟨FlushReason.range, s.batchStartKey, keyNext s.batchEndKey, s.buffer⟩] } := by
      simp [BatcherState.doFlush, hds]
    have hfl : flushIfNeeded cfg s k = (s.doFlush FlushReason.range).reset := by
      simp [flushIfNeeded, hchk, hfk, hge]
    have hadd : addMVCCKey cfg s k ts v =
        Except.ok (acceptKey ((s.doFlush FlushReason.range).reset) k ts v) := by
      have hnd2 : ¬ (s.batchEndKey ≠ [] ∧ s.batchEndKey = k) := by
        rintro ⟨_, h⟩
        exact hnd h
      simp [addMVCCKey, hnd2, hfl]
    refine ⟨_, hadd, ?_, ?_, ?_, ?_, ?_, ?_⟩ <;>
      simp [acceptKey, BatcherState.reset, hdo]

/-- Witness for C8: the spec's scenario — boundary "m" is remembered when
"a" is added to a fresh batcher; and with "a","b" buffered, adding "n"
flushes `["a", "b".Next())` with reason range-boundary and resets before
accepting "n". -/
theorem range_boundary_flush_witness :
    ((addMVCCKey cfgW s0W [97] ⟨5, 0⟩ [120]).toOption.map
        (fun s1 => (s1.flushKey, s1.batchStartKey, s1.buffer)) =
      some (some [109], [97], [⟨[97], ⟨5, 0⟩, [120]⟩])) ∧
    ((addMVCCKey cfgW sW [110] ⟨5, 0⟩ [122]).toOption.map
        (fun s2 => (s2.flushed, s2.buffer, s2.batchStartKey, s2.flushKey)) =
      some ([⟨FlushReason.range, [97], keyNext [98],
              [⟨[97], ⟨5, 0⟩, [120]⟩, ⟨[98], ⟨5, 0⟩, [121]⟩]⟩],
        [⟨[110], ⟨5, 0⟩, [122]⟩], [110], none)) := by
  have h := range_boundary_flush cfgW (fun _ => some [109]) rfl (by decide)
  constructor
  · obtain ⟨s1, h1, h2, h3, h4, h5, h6, h7⟩ :=
      h.1 s0W [97] [120] ⟨5, 0⟩ [109] rfl rfl rfl rfl rfl rfl (by decide)
    rw [h1]
    simp [Except.toOption, h2, h4, h6]
  · obtain ⟨s2, h1, h2, h3, h4, h5, h6, h7⟩ :=
      h.2 sW [110] [122] ⟨5, 0⟩ [109] rfl rfl (by decide) (by decide) (by decide)
    rw [h1]
    simp [Except.toOption, h2, h3, h4, h6, sW]

/-! ## Claim C9: single-key span equivalence -/

theorem byteCompare_ne_gt_iff (a b : Bytes) :
    (¬ byteCompare a b = Ordering.gt) ↔ (¬ byteCompare b a = Ordering.lt) := by
  rcases h : byteCompare b a with _ | _ | _ <;>
    rw [byteCompare_swap b a, h] <;> simp [Ordering.swap]

theorem byteCompare_gt_iff (a b : Bytes) :
    byteCompare a b = Ordering.gt ↔ byteCompare b a = Ordering.lt := by
  rcases h : byteCompare b a with _ | _ | _ <;>
    rw [byteCompare_swap b a, h] <;> simp [Ordering.swap]

theorem byteCompare_antisymm {a b : Bytes}
    (h1 : byteCompare a b ≠ Ordering.lt) (h2 : byteCompare a b ≠ Ordering.gt) : a = b := by
  rcases h : byteCompare a b with _ | _ | _
  · exact absurd h h1
  · exact (byteCompare_eq_iff a b).mp h
  · exact absurd h h2

theorem byteCompare_le_trans {a b c : Bytes}
    (h1 : byteCompare a b ≠ Ordering.gt) (h2 : byteCompare b c ≠ Ordering.gt) :
    byteCompare a c ≠ Ordering.gt := by
  induction a generalizing b c with
  | nil => cases c <;> simp [byteCompare]
  | cons x xs ih =>
    cases b with
    | nil => simp [byteCompare] at h1
    | cons y ys =>
      cases c with
      | nil => simp [byteCompare] at h2
      | cons z zs =>
        by_cases hxy : x < y
        · by_cases hyz : y < z
          · simp [byteCompare, show x < z by omega]
          · by_cases hzy : z < y
            · simp [byteCompare, hyz, hzy] at h2
            · simp [byteCompare, show x < z by omega]
        · by_cases hyx : y < x
          · simp [byteCompare, hxy, hyx] at h1
          · have hxey : x = y := by omega
            subst hxey
            simp only [byteCompare, lt_irrefl, if_false] at h1
            by_cases hxz : x < z
            · simp [byteCompare, hxz]
            · by_cases hzx : z < x
              · simp [byteCompare, hxz, hzx] at h2
              · have hxez : x = z := by omega
                subst hxez
                simp only [byteCompare, lt_irrefl, if_false] at h2 ⊢
                exact ih h1 h2

/-- `x < k.Next()` iff `x ≤ k`, in the form produced by the span branches. -/
theorem lt_next_iff_le (x k : Bytes) :
    byteCompare x (keyNext k) = Ordering.lt ↔ ¬ byteCompare x k = Ordering.gt :=
  byteCompare_lt_next x k

/-- `k.Next() > x` iff `x ≤ k`. -/
theorem next_gt_iff_ge (k x : Bytes) :
    byteCompare (keyNext k) x = Ordering.gt ↔ ¬ byteCompare x k = Ordering.gt := by
  rw [byteCompare_gt_iff]
  exact byteCompare_lt_next x k

/-- `e ≥ k.Next()` iff `k < e`. -/
theorem ge_next_iff_gt (e k : Bytes) :
    ¬ byteCompare e (keyNext k) = Ordering.lt ↔ byteCompare k e = Ordering.lt := by
  rw [← byteCompare_ne_gt_iff (keyNext k) e]
  exact byteCompare_next_le k e

/-- C9 counterexample: the single-key span `{"a"}` does not contain the span
`["a", "a".Next())`, but its claimed equivalent `["a", "a".Next())` does
contain it — so `Contains` does not treat a single-key span identically to
`[Key, Key.Next())` for every valid operand. -/
theorem span_contains_single_counterexample :
    Span.contains ⟨[97], []⟩ ⟨[97], keyNext [97]⟩ = false ∧
    Span.contains ⟨[97], keyNext [97]⟩ ⟨[97], keyNext [97]⟩ = true := by
  decide

/-- C9 (amended). For every non-empty key `k` and valid span `o`: `Overlaps`
gives the same answer for the single-key span `{k}` as for `[k, k.Next())`
(on either side); `Contains` does too, except in the one case the
counterexample exhibits — a span with an empty end key never contains a
span with a non-empty end key, so the two containers disagree exactly on
the operand `o = [k, k.Next())` itself, and as operands they disagree
exactly for the container `o = {k}` itself. -/
theorem span_single_key_equivalence (k : Bytes) (o : Span)
    (hk : k ≠ []) (ho : o.valid = true) :
    (Span.overlaps ⟨k, []⟩ o = Span.overlaps ⟨k, keyNext k⟩ o) ∧
    (Span.overlaps o ⟨k, []⟩ = Span.overlaps o ⟨k, keyNext k⟩) ∧
    (o ≠ ⟨k, keyNext k⟩ → Span.contains ⟨k, []⟩ o = Span.contains ⟨k, keyNext k⟩ o) ∧
    (o ≠ ⟨k, []⟩ → Span.contains o ⟨k, []⟩ = Span.contains o ⟨k, keyNext k⟩) := by
  have hkl : k.length ≠ 0 := fun h => hk (List.length_eq_zero.mp h)
  have hnl : (keyNext k).length ≠ 0 := by simp [keyNext]
  have hv1 : (Span.mk k []).valid = true := by
    simp [Span.valid, hkl]
  have hv2 : (Span.mk k (keyNext k)).valid = true := by
    simp [Span.valid, hkl, hnl, byteCompare_lt_keyNext_self]
  rcases o with ⟨ok, oe⟩
  by_cases hoe : oe = []
  · subst hoe
    have hok : ok ≠ [] := by
      intro h
      subst h
      simp [Span.valid] at ho
    have hokl : ok.length ≠ 0 := fun h => hok (List.length_eq_zero.mp h)
    refine ⟨?_, ?_, fun _ => ?_, fun hno => ?_⟩
    · -- Overlaps, single on the left, `o` single
      rw [Bool.eq_iff_iff]
      simp only [Span.overlaps, hv1, hv2, ho]
      simp [hkl, hokl, hnl]
      rw [show (¬ byteCompare ok k = Ordering.lt ∧
            byteCompare ok (keyNext k) = Ordering.lt) ↔ ok = k from mem_next_iff_eq ok k]
      exact eq_comm
    · -- Overlaps, single on the right, `o` single
      rw [Bool.eq_iff_iff]
      simp only [Span.overlaps, hv1, hv2, ho]
      simp [hkl, hokl, hnl]
      rw [show (¬ byteCompare ok k = Ordering.lt ∧
            byteCompare ok (keyNext k) = Ordering.lt) ↔ ok = k from mem_next_iff_eq ok k]
    · -- Contains, single container, `o` single
      rw [Bool.eq_iff_iff]
      simp only [Span.contains, hv1, hv2, ho]
      simp [hkl, hokl, hnl]
      rw [show (¬ byteCompare ok k = Ordering.lt ∧
            byteCompare ok (keyNext k) = Ordering.lt) ↔ ok = k from mem_next_iff_eq ok k]
      exact eq_comm
    · -- Contains, single operand, `o` single container
      have hne : ok ≠ k := fun h => hno (by rw [h])
      rw [Bool.eq_iff_iff]
      simp only [Span.contains, hv1, hv2, ho]
      simp [hkl, hokl, hnl, hne]
  · have hoel : oe.length ≠ 0 := fun h => hoe (List.length_eq_zero.mp h)
    have hvo : byteCompare ok oe = Ordering.lt := by
      by_cases h : byteCompare ok oe = Ordering.lt
      · exact h
      · simp [Span.valid, hoel, h] at ho
    refine ⟨?_, ?_, fun hno => ?_, fun _ => ?_⟩
    · -- Overlaps, single on the left, `o` regular
      rw [Bool.eq_iff_iff]
      simp only [Span.overlaps, hv1, hv2, ho]
      simp [hkl, hoel, hnl]
      intro _
      rw [next_gt_iff_ge, byteCompare_ne_gt_iff]
    · -- Overlaps, single on the right, `o` regular
      rw [Bool.eq_iff_iff]
      simp only [Span.overlaps, hv1, hv2, ho]
      simp [hkl, hoel, hnl]
      constructor
      · rintro ⟨h1, h2⟩
        refine ⟨(byteCompare_gt_iff oe k).mpr h2, ?_⟩
        rw [lt_next_iff_le, byteCompare_ne_gt_iff]
        exact h1
      · rintro ⟨h1, h2⟩
        rw [lt_next_iff_le, byteCompare_ne_gt_iff] at h2
        exact ⟨h2, (byteCompare_gt_iff oe k).mp h1⟩
    · -- Contains, single container, `o` regular: the single-key container
      -- contains no span with a non-empty end key, while the expanded
      -- container contains such an `o` only when `o = [k, k.Next())`,
      -- which is excluded.
      rw [Bool.eq_iff_iff]
      simp only [Span.contains, hv1, hv2, ho]
      simp [hkl, hoel, hnl]
      intro h1
      by_contra hB
      apply hno
      rcases hcase : byteCompare (keyNext k) oe with _ | _ | _
      · exact absurd hcase hB
      · -- oe = k.Next(); and ok < oe = k.Next() gives ok ≤ k, so ok = k
        have hoeq : oe = keyNext k := ((byteCompare_eq_iff (keyNext k) oe).mp hcase).symm
        have hokk : ¬ byteCompare ok k = Ordering.gt := by
          rw [← lt_next_iff_le]
          rw [hoeq] at hvo
          exact hvo
        have h1s : ¬ byteCompare ok k = Ordering.lt := by
          rw [← byteCompare_ne_gt_iff]
          exact h1
        rw [byteCompare_antisymm h1s hokk, hoeq]
      · -- k.Next() > oe would give ok < oe ≤ k ≤ ok, impossible
        exfalso
        have hoek : ¬ byteCompare oe k = Ordering.gt := by
          rw [← lt_next_iff_le]
          exact (byteCompare_gt_iff (keyNext k) oe).mp hcase
        have hokoe : ¬ byteCompare ok oe = Ordering.gt := by
          rw [hvo]
          simp
        have hokk : ¬ byteCompare ok k = Ordering.gt := byteCompare_le_trans hokoe hoek
        have h1s : ¬ byteCompare ok k = Ordering.lt := by
          rw [← byteCompare_ne_gt_iff]
          exact h1
        have hkeq : ok = k := byteCompare_antisymm h1s hokk
        subst hkeq
        -- then ok < oe means k.Next() ≤ oe, contradicting k.Next() > oe
        have : ¬ byteCompare (keyNext ok) oe = Ordering.gt := by
          rw [show (¬ byteCompare (keyNext ok) oe = Ordering.gt) ↔
              byteCompare ok oe = Ordering.lt from byteCompare_next_le ok oe]
          exact hvo
        exact this hcase
    · -- Contains, single operand, `o` regular container
      rw [Bool.eq_iff_iff]
      simp only [Span.contains, hv1, hv2, ho]
      simp [hkl, hoel, hnl]
      constructor
      · rintro ⟨h1, h2⟩
        refine ⟨?_, ?_⟩
        · rw [byteCompare_ne_gt_iff]
          exact h1
        · rw [ge_next_iff_gt]
          exact h2
      · rintro ⟨h1, h2⟩
        rw [ge_next_iff_gt] at h2
        rw [byteCompare_ne_gt_iff] at h1
        exact ⟨h1, h2⟩

/-- Witness for C9's amended theorem at the concrete key "a" and the
ordinary valid span `["a", "b")`. -/
theorem span_single_key_equivalence_witness :
    (Span.overlaps ⟨[97], []⟩ ⟨[97], [98]⟩ =
      Span.overlaps ⟨[97], keyNext [97]⟩ ⟨[97], [98]⟩) ∧
    (Span.contains ⟨[97], []⟩ ⟨[97], [98]⟩ =
      Span.contains ⟨[97], keyNext [97]⟩ ⟨[97], [98]⟩) := by
  have h := span_single_key_equivalence [97] ⟨[97], [98]⟩ (by decide) (by decide)
  exact ⟨h.1, h.2.2.1 (by decide)⟩

end Spec2Proof

